import Mathlib

/-!
Verification of the documentation-retrieval engine (SQLite RAG tool).

The development shallowly embeds `src/tools/rag-sqlite.tools.ts`:
  - text is a list of UTF-16 code units (`List Nat`); all concrete inputs
    used below are in the Basic Multilingual Plane, where a code unit is
    the code point;
  - JavaScript string operations (`slice` with its negative-index clamping,
    `trim`, `split`, `toLowerCase` on the ASCII range that the scanned
    keywords use) are modelled directly;
  - the two `while` loops of `chunkText` advance an `Int` window start
    exactly as the source does (`start = end - overlap` can go negative,
    and `text.slice(start, end)` then clamps from `length + start`);
    the loops take a fuel argument and return `none` when the fuel runs
    out, so non-termination of the source is `= none` for every fuel;
  - the SQLite `documents` table is a list of rows; `DELETE`/`INSERT`/
    `SELECT COUNT`/`SELECT DISTINCT` become list operations;
  - the embedding provider is an oracle parameter `List Nat → Option (List Int)`
    (`none` models a thrown provider error, caught per chunk);
  - per-candidate scoring in `searchSimilar` (Float32Array decode plus
    `cosineSimilarity`) is an oracle `Row → Option ℚ` (`none` models the
    caught exception, which the source turns into score 0);
  - `cosineSimilarity` itself is modelled over the reals (`Math.sqrt`,
    division), mirroring the source's guards branch for branch.
-/

namespace RagSpec

/-- Code units of a Lean string literal; used to write concrete inputs. -/
def strCodes (s : String) : List Nat := s.data.map Char.toNat

/-- The code units JavaScript `String.prototype.trim` removes (WhiteSpace and
LineTerminator productions). -/
def isJsWs (c : Nat) : Bool :=
  c == 9 || c == 10 || c == 11 || c == 12 || c == 13 || c == 32 || c == 160 ||
  c == 0x1680 || (decide (0x2000 ≤ c) && decide (c ≤ 0x200A)) ||
  c == 0x2028 || c == 0x2029 || c == 0x202F || c == 0x205F || c == 0x3000 || c == 0xFEFF

/-- JavaScript `s.trim()`: drop leading and trailing whitespace. -/
def trim (l : List Nat) : List Nat :=
  ((l.dropWhile isJsWs).reverse.dropWhile isJsWs).reverse

/-- JavaScript `s.slice(start, end)` with both indices possibly negative:
a negative index counts from the end and is clamped to 0, a positive one is
clamped to the length. -/
def jsSlice (l : List Nat) (s e : Int) : List Nat :=
  let len : Int := l.length
  let f : Int := if s < 0 then max (len + s) 0 else min s len
  let t : Int := if e < 0 then max (len + e) 0 else min e len
  if f < t then (l.drop f.toNat).take (t - f).toNat else []

/-- JavaScript `text.split('\n\n')` (the separator is two line feeds, matched
left to right without overlap); `acc` holds the current piece reversed. -/
def splitSepAux : List Nat → List Nat → List (List Nat)
  | [], acc => [acc.reverse]
  | 10 :: 10 :: rest, acc => acc.reverse :: splitSepAux rest []
  | c :: rest, acc => splitSepAux rest (c :: acc)

/-- The inner fixed-window `while` loop of `chunkText` (used both for the
no-paragraph fallback and for paragraphs longer than `chunkSize`).  One fuel
unit per iteration; `none` means the fuel ran out before the loop exited.
Mirrors the source statement for statement:
`end = Math.min(start + chunkSize, len)`, push the trimmed slice when its
length is in (10, 2000], `start = end - overlap`, break when
`start >= len` or `chunks.length > 500`. -/
def windowLoop (p : List Nat) (chunkSize overlap : Nat) (fuel : Nat)
    (start : Int) (chunks : List (List Nat)) : Option (List (List Nat)) :=
  match fuel with
  | 0 => none
  | Nat.succ f =>
    if start < (p.length : Int) then
      let e : Int := min (start + (chunkSize : Int)) (p.length : Int)
      let chunk := trim (jsSlice p start e)
      let chunks2 := if 10 < chunk.length ∧ chunk.length ≤ 2000 then chunks ++ [chunk] else chunks
      let start2 := e - (overlap : Int)
      if (p.length : Int) ≤ start2 then some chunks2
      else if 500 < chunks2.length then some chunks2
      else windowLoop p chunkSize overlap f start2 chunks2
    else some chunks

/-- The `for (const paragraph of paragraphs)` loop of `chunkText`: a paragraph
no longer than `chunkSize` is pushed trimmed, a longer one is window-sliced
into the shared `chunks`, and the loop breaks once `chunks.length > 500`. -/
def paraLoop (chunkSize overlap fuel : Nat) :
    List (List Nat) → List (List Nat) → Option (List (List Nat))
  | [], chunks => some chunks
  | p :: rest, chunks =>
    let step := if p.length ≤ chunkSize then some (chunks ++ [trim p])
                else windowLoop p chunkSize overlap fuel 0 chunks
    match step with
    | none => none
    | some chunks2 =>
      if 500 < chunks2.length then some chunks2
      else paraLoop chunkSize overlap fuel rest chunks2

/-- `SQLiteVectorStore.chunkText(text, chunkSize = 600, overlap = 50)`:
truncate oversized input, split on blank lines, keep paragraphs whose trimmed
length exceeds 20; with no paragraphs run the window loop and return its
chunks directly (note: without the final fallback), otherwise chunk each
paragraph and fall back to `[text.slice(0, chunkSize)]` when nothing was
produced.  `none` means the source loops forever within `fuel` iterations. -/
def chunkText (text : List Nat) (chunkSize overlap fuel : Nat) :
    Option (List (List Nat)) :=
  let t := if 100000 < text.length then text.take 50000 else text
  let paragraphs := (splitSepAux t []).filter (fun p => decide (20 < (trim p).length))
  if paragraphs.length = 0 then windowLoop t chunkSize overlap fuel 0 []
  else
    match paraLoop chunkSize overlap fuel paragraphs [] with
    | none => none
    | some chunks => some (if 0 < chunks.length then chunks else [t.take chunkSize])

end RagSpec

namespace RagSpec

/-! ### Concrete inputs used by counterexamples and witnesses -/

/-- The five-character input "hello": its only blank-line piece trims to
length 5 ≤ 20, so the no-paragraph window loop runs on it. -/
def helloText : List Nat := strCodes "hello"

/-- The three-character input "abc". -/
def abcText : List Nat := strCodes "abc"

/-- A 25-character paragraph (its trimmed length 25 exceeds the 20-character
paragraph filter), chunked as a single short paragraph. -/
def text25 : List Nat := strCodes "aaaaaaaaaaaaaaaaaaaaaaaaa"

/-- Nine spaces, twelve letters, nine spaces (length 30): the whole text trims
to 12 ≤ 20 characters, so the no-paragraph window loop runs; its second window
is `slice(-20, 30)`, which trims to 11 > 10 characters and is pushed again and
again while `start` stays at −20, until the chunk counter passes 500. -/
def c2Text : List Nat := strCodes "         aaaaaaaaaaaa         "

/-! ### C1: the window loops do not always terminate -/

theorem windowLoop_hello_step (n : Nat) :
    windowLoop helloText 600 50 (n + 1) (-45) [] = windowLoop helloText 600 50 n (-45) [] := rfl

theorem windowLoop_hello_stuck : ∀ fuel, windowLoop helloText 600 50 fuel (-45) [] = none := by
  intro fuel
  induction fuel with
  | zero => rfl
  | succ n ih => rw [windowLoop_hello_step]; exact ih

theorem chunkText_hello_step (n : Nat) :
    chunkText helloText 600 50 (n + 1) = windowLoop helloText 600 50 n (-45) [] := rfl

/-- Claim C1 (code_bug evidence): on the input "hello" the no-paragraph window
loop of `chunkText` with the default `targetSize = 600`, `overlap = 50` never
terminates: after the first iteration the window start is pinned at
`end − overlap = 5 − 50 = −45`, the trimmed window ("hello", length 5 ≤ 10) is
never pushed, so neither break fires and the loop repeats the same state
forever — `chunkText` runs out of any amount of fuel. -/
theorem chunkText_default_diverges_on_hello : ∀ fuel, chunkText helloText 600 50 fuel = none := by
  intro fuel
  cases fuel with
  | zero => rfl
  | succ n => rw [chunkText_hello_step]; exact windowLoop_hello_stuck n

/-! ### C2: the chunk-count cap is checked after the push, so 501 chunks are reachable -/

set_option maxRecDepth 8000 in
set_option maxHeartbeats 4000000 in
/-- Claim C2 counterexample: a concrete 30-character input on which
`chunkText` with default parameters returns 501 chunks — more than the claimed
cap of 500 (the `chunks.length > 500` break runs only after a push). -/
theorem chunkText_chunk_count_can_reach_501 :
    ((chunkText c2Text 600 50 600).getD []).length = 501 := by
  rfl

theorem windowLoop_length_le (p : List Nat) (cs ov : Nat) :
    ∀ fuel (start : Int) (chunks r : List (List Nat)), chunks.length ≤ 500 →
      windowLoop p cs ov fuel start chunks = some r → r.length ≤ 501 := by
  intro fuel
  induction fuel with
  | zero => intro start chunks r hlen h; simp [windowLoop] at h
  | succ f ih =>
    intro start chunks r hlen h
    rw [windowLoop] at h
    by_cases hs : start < (p.length : Int)
    · simp only [if_pos hs] at h
      set chunk := trim (jsSlice p start (min (start + (cs : Int)) (p.length : Int))) with hchunk
      set chunks2 := if 10 < chunk.length ∧ chunk.length ≤ 2000 then chunks ++ [chunk] else chunks with hc2
      have hlen2 : chunks2.length ≤ 501 := by
        rw [hc2]; split
        · simp; omega
        · omega
      by_cases h1 : (p.length : Int) ≤ min (start + (cs : Int)) (p.length : Int) - (ov : Int)
      · simp only [if_pos h1] at h
        exact Option.some.inj h ▸ hlen2
      · simp only [if_neg h1] at h
        by_cases h2 : 500 < chunks2.length
        · simp only [if_pos h2] at h
          exact Option.some.inj h ▸ hlen2
        · simp only [if_neg h2] at h
          exact ih _ chunks2 r (by omega) h
    · simp only [if_neg hs] at h
      cases h; omega

theorem paraLoop_length_le (cs ov fuel : Nat) :
    ∀ ps chunks r, chunks.length ≤ 500 →
      paraLoop cs ov fuel ps chunks = some r → r.length ≤ 501 := by
  intro ps
  induction ps with
  | nil => intro chunks r hlen h; rw [paraLoop] at h; cases h; omega
  | cons p rest ih =>
    intro chunks r hlen h
    rw [paraLoop] at h
    by_cases hp : p.length ≤ cs
    · simp only [if_pos hp] at h
      have hlen2 : (chunks ++ [trim p]).length ≤ 501 := by simp; omega
      by_cases h2 : 500 < (chunks ++ [trim p]).length
      · simp only [if_pos h2] at h; cases h; exact hlen2
      · simp only [if_neg h2] at h
        exact ih _ r (by omega) h
    · simp only [if_neg hp] at h
      cases hw : windowLoop p cs ov fuel 0 chunks with
      | none => rw [hw] at h; simp at h
      | some chunks2 =>
        rw [hw] at h
        have hlen2 : chunks2.length ≤ 501 := windowLoop_length_le p cs ov fuel 0 chunks chunks2 hlen hw
        simp only at h
        by_cases h2 : 500 < chunks2.length
        · simp only [if_pos h2] at h; cases h; exact hlen2
        · simp only [if_neg h2] at h
          exact ih chunks2 r (by omega) h

/-- Claim C2, amended: whenever `chunkText` with default parameters returns a
chunk list, that list holds at most 501 chunks — the cap break
`chunks.length > 500` runs only after a chunk is pushed, so the nominal cap of
500 can be exceeded by exactly one. -/
theorem chunkText_chunk_count_le_501 (text : List Nat) (fuel : Nat) (r : List (List Nat)) :
    chunkText text 600 50 fuel = some r → r.length ≤ 501 := by
  intro h
  rw [chunkText] at h
  by_cases hp : ((splitSepAux (if 100000 < text.length then text.take 50000 else text) []).filter
      (fun p => decide (20 < (trim p).length))).length = 0
  · simp only [if_pos hp] at h
    exact windowLoop_length_le _ 600 50 fuel 0 [] r (by simp) h
  · simp only [if_neg hp] at h
    cases hl : paraLoop 600 50 fuel ((splitSepAux (if 100000 < text.length then text.take 50000 else text) []).filter
      (fun p => decide (20 < (trim p).length))) [] with
    | none => rw [hl] at h; simp at h
    | some chunks =>
      rw [hl] at h
      simp only at h
      have := paraLoop_length_le 600 50 fuel _ [] chunks (by simp) hl
      cases h
      split
      · omega
      · simp

/-! ### C3: divergence on "abc", and the guarantee on the runs that do return -/

theorem windowLoop_abc_step (n : Nat) :
    windowLoop abcText 600 50 (n + 1) (-47) [] = windowLoop abcText 600 50 n (-47) [] := rfl

theorem windowLoop_abc_stuck : ∀ fuel, windowLoop abcText 600 50 fuel (-47) [] = none := by
  intro fuel
  induction fuel with
  | zero => rfl
  | succ n ih => rw [windowLoop_abc_step]; exact ih

theorem chunkText_abc_step (n : Nat) :
    chunkText abcText 600 50 (n + 1) = windowLoop abcText 600 50 n (-47) [] := rfl

/-- Claim C3 counterexample: the non-empty input "abc" never makes `chunkText`
return at all (its window start is pinned at 3 − 50 = −47 and the trimmed
window "abc" is too short to push), so no chunk — non-empty or otherwise — is
ever returned for it. -/
theorem chunkText_not_total_on_abc :
    ¬ ∃ fuel r, chunkText abcText 600 50 fuel = some r := by
  rintro ⟨fuel, r, h⟩
  cases fuel with
  | zero => exact Option.noConfusion h
  | succ n =>
    rw [chunkText_abc_step] at h
    rw [windowLoop_abc_stuck n] at h
    exact Option.noConfusion h

theorem windowLoop_mem_ne_nil (p : List Nat) (cs ov : Nat) :
    ∀ fuel (start : Int) (chunks r : List (List Nat)),
      (∀ c ∈ chunks, c ≠ []) → windowLoop p cs ov fuel start chunks = some r →
      ∀ c ∈ r, c ≠ [] := by
  intro fuel
  induction fuel with
  | zero => intro start chunks r hne h; simp [windowLoop] at h
  | succ f ih =>
    intro start chunks r hne h
    rw [windowLoop] at h
    by_cases hs : start < (p.length : Int)
    · simp only [if_pos hs] at h
      set chunk := trim (jsSlice p start (min (start + (cs : Int)) (p.length : Int))) with hchunk
      set chunks2 := if 10 < chunk.length ∧ chunk.length ≤ 2000 then chunks ++ [chunk] else chunks with hc2
      have hne2 : ∀ c ∈ chunks2, c ≠ [] := by
        rw [hc2]; split
        · rename_i hlen
          intro c hc
          rcases List.mem_append.1 hc with hc | hc
          · exact hne c hc
          · rcases List.mem_singleton.1 hc with rfl
            intro hnil
            rw [hnil] at hlen
            simp at hlen
        · exact hne
      by_cases h1 : (p.length : Int) ≤ min (start + (cs : Int)) (p.length : Int) - (ov : Int)
      · simp only [if_pos h1] at h
        exact Option.some.inj h ▸ hne2
      · simp only [if_neg h1] at h
        by_cases h2 : 500 < chunks2.length
        · simp only [if_pos h2] at h
          exact Option.some.inj h ▸ hne2
        · simp only [if_neg h2] at h
          exact ih _ chunks2 r hne2 h
    · simp only [if_neg hs] at h
      exact Option.some.inj h ▸ hne

theorem windowLoop_some_ne_nil (p : List Nat) (cs ov : Nat) (hov : 0 < ov) :
    ∀ fuel (start : Int) (chunks r : List (List Nat)),
      start < (p.length : Int) → windowLoop p cs ov fuel start chunks = some r →
      r ≠ [] := by
  intro fuel
  induction fuel with
  | zero => intro start chunks r hs h; simp [windowLoop] at h
  | succ f ih =>
    intro start chunks r hs h
    rw [windowLoop] at h
    simp only [if_pos hs] at h
    set chunk := trim (jsSlice p start (min (start + (cs : Int)) (p.length : Int))) with hchunk
    set chunks2 := if 10 < chunk.length ∧ chunk.length ≤ 2000 then chunks ++ [chunk] else chunks with hc2
    by_cases h1 : (p.length : Int) ≤ min (start + (cs : Int)) (p.length : Int) - (ov : Int)
    · exfalso
      have hmin : min (start + (cs : Int)) (p.length : Int) ≤ (p.length : Int) := min_le_right _ _
      omega
    · simp only [if_neg h1] at h
      by_cases h2 : 500 < chunks2.length
      · simp only [if_pos h2] at h
        intro hnil
        rw [Option.some.inj h, hnil] at h2
        simp at h2
      · simp only [if_neg h2] at h
        exact ih _ chunks2 r (by omega) h

theorem paraLoop_mem_ne_nil (cs ov fuel : Nat) :
    ∀ ps chunks r, (∀ p ∈ ps, 20 < (trim p).length) → (∀ c ∈ chunks, c ≠ []) →
      paraLoop cs ov fuel ps chunks = some r → ∀ c ∈ r, c ≠ [] := by
  intro ps
  induction ps with
  | nil => intro chunks r hps hne h; rw [paraLoop] at h; exact Option.some.inj h ▸ hne
  | cons p rest ih =>
    intro chunks r hps hne h
    rw [paraLoop] at h
    have hp20 : 20 < (trim p).length := hps p (List.mem_cons_self p rest)
    by_cases hp : p.length ≤ cs
    · simp only [if_pos hp] at h
      have hne2 : ∀ c ∈ chunks ++ [trim p], c ≠ [] := by
        intro c hc
        rcases List.mem_append.1 hc with hc | hc
        · exact hne c hc
        · rcases List.mem_singleton.1 hc with rfl
          intro hnil
          rw [hnil] at hp20
          simp at hp20
      by_cases h2 : 500 < (chunks ++ [trim p]).length
      · simp only [if_pos h2] at h
        exact Option.some.inj h ▸ hne2
      · simp only [if_neg h2] at h
        exact ih _ r (fun q hq => hps q (List.mem_cons_of_mem p hq)) hne2 h
    · simp only [if_neg hp] at h
      cases hw : windowLoop p cs ov fuel 0 chunks with
      | none => rw [hw] at h; simp at h
      | some chunks2 =>
        rw [hw] at h
        simp only at h
        have hne2 : ∀ c ∈ chunks2, c ≠ [] := windowLoop_mem_ne_nil p cs ov fuel 0 chunks chunks2 hne hw
        by_cases h2 : 500 < chunks2.length
        · simp only [if_pos h2] at h
          exact Option.some.inj h ▸ hne2
        · simp only [if_neg h2] at h
          exact ih chunks2 r (fun q hq => hps q (List.mem_cons_of_mem p hq)) hne2 h

/-- Claim C3, amended: whenever `chunkText` with default parameters returns a
chunk list on a non-empty input, that list contains at least one non-empty
chunk (pushed window chunks have length > 10, pushed paragraphs have trimmed
length > 20, and the paragraph-branch fallback `[text.slice(0, targetSize)]`
is non-empty) — but `chunkText` does not return on every non-empty input, so
the claim's unconditional "returns" fails. -/
theorem chunkText_some_has_content (text : List Nat) (fuel : Nat) (r : List (List Nat)) :
    text ≠ [] → chunkText text 600 50 fuel = some r → ∃ c ∈ r, c ≠ [] := by
  intro hne h
  rw [chunkText] at h
  set t := if 100000 < text.length then text.take 50000 else text with ht
  have htne : t ≠ [] := by
    rw [ht]; split
    · rename_i hbig
      intro hnil
      have := congrArg List.length hnil
      rw [List.length_take, List.length_nil] at this
      omega
    · exact hne
  set paragraphs := (splitSepAux t []).filter (fun p => decide (20 < (trim p).length)) with hpara
  by_cases hp : paragraphs.length = 0
  · simp only [if_pos hp] at h
    have hrne : r ≠ [] := by
      refine windowLoop_some_ne_nil t 600 50 (by omega) fuel 0 [] r ?_ h
      have : 0 < t.length := List.length_pos.2 htne
      omega
    have hmem : ∀ c ∈ r, c ≠ [] :=
      windowLoop_mem_ne_nil t 600 50 fuel 0 [] r (by simp) h
    rcases List.exists_mem_of_ne_nil r hrne with ⟨c, hc⟩
    exact ⟨c, hc, hmem c hc⟩
  · simp only [if_neg hp] at h
    cases hl : paraLoop 600 50 fuel paragraphs [] with
    | none => rw [hl] at h; simp at h
    | some chunks =>
      rw [hl] at h
      simp only at h
      have hfilter : ∀ p ∈ paragraphs, 20 < (trim p).length := by
        intro p hmem
        rw [hpara] at hmem
        have := List.mem_filter.1 hmem
        exact of_decide_eq_true this.2
      have hmem : ∀ c ∈ chunks, c ≠ [] :=
        paraLoop_mem_ne_nil 600 50 fuel paragraphs [] chunks hfilter (by simp) hl
      cases Option.some.inj h
      by_cases hc0 : 0 < chunks.length
      · simp only [if_pos hc0]
        rcases List.exists_mem_of_ne_nil chunks (by intro hnil; rw [hnil] at hc0; simp at hc0) with ⟨c, hc⟩
        exact ⟨c, hc, hmem c hc⟩
      · simp only [if_neg hc0]
        refine ⟨t.take 600, List.mem_singleton.2 rfl, ?_⟩
        intro hnil
        rw [List.take_eq_nil_iff] at hnil
        rcases hnil with h600 | hnil
        · simp at h600
        · exact htne hnil

/-- Witness for the amended C3 theorem at the concrete input `text25`. -/
theorem chunkText_some_has_content_witness : ∃ c ∈ ([text25] : List (List Nat)), c ≠ [] :=
  chunkText_some_has_content text25 0 [text25] (by decide) rfl

/-- Witness for the amended C2 theorem at the concrete input `text25`. -/
theorem chunkText_chunk_count_le_501_witness : ([text25] : List (List Nat)).length ≤ 501 :=
  chunkText_chunk_count_le_501 text25 0 [text25] rfl

end RagSpec

namespace RagSpec

/-! ### The documents table and the indexer -/

/-- JavaScript `ToInt32`: reduce an exact integer into the signed 32-bit range. -/
def toInt32 (x : Int) : Int :=
  let m := x % 4294967296
  if m < 2147483648 then m else m - 4294967296

/-- One step of `getFileHash`: `hash = (hash << 5) - hash + char; hash = hash & hash`.
`hash` is already a 32-bit integer, so `hash << 5` is `ToInt32(hash * 32)`, the
subtraction and addition are exact, and `hash & hash` is a final `ToInt32`. -/
def hashStep (h : Int) (c : Nat) : Int :=
  toInt32 (toInt32 (h * 32) - h + c)

/-- `SQLiteVectorStore.getFileHash(content)`: fold the rolling hash over the
code units and take `Math.abs`; the hex rendering `toString(16)` is injective
on naturals, so the hash is modelled as the natural number itself. -/
def getFileHash (content : List Nat) : Nat :=
  (content.foldl hashStep 0).natAbs

/-- Node's `basename(filePath)` restricted to forward-slash paths: the part
after the last separator. -/
def basename (p : List Nat) : List Nat :=
  (p.splitOn 47).getLastD []

/-- Decimal digits of a natural number, as code units (`String(n)`). -/
def natDigits (n : Nat) : List Nat := (Nat.toDigits 10 n).map Char.toNat

/-- The chunk id `${filePath}_chunk_${chunkIndex}`. -/
def chunkId (filePath : List Nat) (i : Nat) : List Nat :=
  filePath ++ strCodes "_chunk_" ++ natDigits i

/-- One row of the SQLite `documents` table (`created_at` carries no content
and is omitted; the row order of the model list stands for the scan order). -/
structure Row where
  id : List Nat
  text : List Nat
  emb : List Int
  fileName : List Nat
  path : List Nat
  fileType : List Nat
  chunkIndex : Nat
  hash : Nat
deriving DecidableEq, Repr

/-- The insert loop of `indexDocument`: every chunk in order gets the absolute
index `i + j`, its embedding is requested from the provider oracle, and a
provider error (`none`) is caught and skips just that chunk.  The batch
grouping and inter-batch pauses do not change the stored rows. -/
def insertChunks (filePath : List Nat) (fileHash : Nat)
    (embed : List Nat → Option (List Int)) (chunks : List (List Nat)) : List Row :=
  chunks.enum.filterMap (fun ic =>
    match embed ic.2 with
    | none => none
    | some v => some { id := chunkId filePath ic.1, text := ic.2, emb := v,
                       fileName := basename filePath, path := filePath,
                       fileType := strCodes "markdown", chunkIndex := ic.1,
                       hash := fileHash })

/-- `SQLiteVectorStore.indexDocument(filePath, content)`: count rows with this
(path, hash); if any exist, no-op; otherwise delete every row of the path,
chunk the content and insert the surviving chunks.  `none` means the call
never completes (`chunkText` spins forever within `fuel`). -/
def indexDocument (db : List Row) (filePath content : List Nat)
    (embed : List Nat → Option (List Int)) (fuel : Nat) : Option (List Row) :=
  let fileHash := getFileHash content
  let existing := (db.filter (fun r => decide (r.path = filePath ∧ r.hash = fileHash))).length
  if 0 < existing then some db
  else
    let db2 := db.filter (fun r => decide (¬ r.path = filePath))
    match chunkText content 600 50 fuel with
    | none => none
    | some chunks => some (db2 ++ insertChunks filePath fileHash embed chunks)

def exPath : List Nat := strCodes "p"

def exEmbed : List Nat → Option (List Int) := fun _ => some [1]


end RagSpec

namespace RagSpec

/-- The spec's stored-chunk invariant: rows sharing a source path share the
parent content hash. -/
def pathHashUniform (db : List Row) : Prop :=
  ∀ r1 ∈ db, ∀ r2 ∈ db, r1.path = r2.path → r1.hash = r2.hash

theorem insertChunks_path_hash (filePath : List Nat) (fileHash : Nat)
    (embed : List Nat → Option (List Int)) (chunks : List (List Nat)) :
    ∀ r ∈ insertChunks filePath fileHash embed chunks,
      r.path = filePath ∧ r.hash = fileHash := by
  intro r hr
  rcases List.mem_filterMap.1 hr with ⟨ic, _, hic⟩
  cases hembed : embed ic.2 with
  | none => rw [hembed] at hic; exact Option.noConfusion hic
  | some v =>
    rw [hembed] at hic
    cases Option.some.inj hic
    exact ⟨rfl, rfl⟩

/-- Claim C4: provided the table already satisfied the per-path hash
invariant, after a completed `indexDocument(filePath, content)` every stored
row of that path carries `getFileHash content`, and the invariant still holds
for the whole table. -/
theorem indexDocument_hash_current (db : List Row) (filePath content : List Nat)
    (embed : List Nat → Option (List Int)) (fuel : Nat) (db2 : List Row)
    (hu : pathHashUniform db)
    (h : indexDocument db filePath content embed fuel = some db2) :
    (∀ r ∈ db2, r.path = filePath → r.hash = getFileHash content) ∧ pathHashUniform db2 := by
  rw [indexDocument] at h
  by_cases hex : 0 < (db.filter (fun r => decide (r.path = filePath ∧ r.hash = getFileHash content))).length
  · simp only [if_pos hex] at h
    obtain rfl : db2 = db := (Option.some.inj h).symm
    rcases List.exists_mem_of_ne_nil _ (List.ne_nil_of_length_pos hex) with ⟨r0, hr0⟩
    have hr0f := List.mem_filter.1 hr0
    have hr0p := of_decide_eq_true hr0f.2
    constructor
    · intro r hr hrp
      have := hu r hr r0 hr0f.1 (hrp.trans hr0p.1.symm)
      rw [this, hr0p.2]
    · exact hu
  · simp only [if_neg hex] at h
    cases hc : chunkText content 600 50 fuel with
    | none => rw [hc] at h; exact absurd h (by simp)
    | some chunks =>
      rw [hc] at h
      simp only at h
      obtain rfl : db2 = db.filter (fun r => decide (¬ r.path = filePath)) ++
          insertChunks filePath (getFileHash content) embed chunks := (Option.some.inj h).symm
      have hins := insertChunks_path_hash filePath (getFileHash content) embed chunks
      have hmemcases : ∀ r ∈ db.filter (fun r => decide (¬ r.path = filePath)) ++
          insertChunks filePath (getFileHash content) embed chunks,
          (r ∈ db ∧ ¬ r.path = filePath) ∨ (r.path = filePath ∧ r.hash = getFileHash content) := by
        intro r hr
        rcases List.mem_append.1 hr with hr | hr
        · have hf := List.mem_filter.1 hr
          exact Or.inl ⟨hf.1, of_decide_eq_true hf.2⟩
        · exact Or.inr (hins r hr)
      constructor
      · intro r hr hrp
        rcases hmemcases r hr with ⟨_, hne⟩ | ⟨_, hh⟩
        · exact absurd hrp hne
        · exact hh
      · intro r1 h1 r2 h2 hp
        rcases hmemcases r1 h1 with ⟨h1db, h1ne⟩ | ⟨h1p, h1h⟩ <;>
          rcases hmemcases r2 h2 with ⟨h2db, h2ne⟩ | ⟨h2p, h2h⟩
        · exact hu r1 h1db r2 h2db hp
        · exact absurd (hp.trans h2p) h1ne
        · exact absurd (hp.symm.trans h1p) h2ne
        · rw [h1h, h2h]

/-- Claim C5: indexing the same (path, content) pair twice yields exactly the
table the first call produced — the second completed call changes nothing, so
no chunk is duplicated and every chunk id is unchanged. -/
theorem indexDocument_idempotent (db : List Row) (filePath content : List Nat)
    (embed : List Nat → Option (List Int)) (fuel : Nat) (db1 db2 : List Row)
    (h1 : indexDocument db filePath content embed fuel = some db1)
    (h2 : indexDocument db1 filePath content embed fuel = some db2) :
    db2 = db1 := by
  rw [indexDocument] at h1
  by_cases hex : 0 < (db.filter (fun r => decide (r.path = filePath ∧ r.hash = getFileHash content))).length
  · simp only [if_pos hex] at h1
    obtain rfl : db1 = db := (Option.some.inj h1).symm
    rw [indexDocument] at h2
    simp only [if_pos hex] at h2
    exact (Option.some.inj h2).symm
  · simp only [if_neg hex] at h1
    cases hc : chunkText content 600 50 fuel with
    | none => rw [hc] at h1; exact absurd h1 (by simp)
    | some chunks =>
      rw [hc] at h1
      simp only at h1
      obtain rfl : db1 = db.filter (fun r => decide (¬ r.path = filePath)) ++
          insertChunks filePath (getFileHash content) embed chunks := (Option.some.inj h1).symm
      rw [indexDocument] at h2
      cases hins : insertChunks filePath (getFileHash content) embed chunks with
      | cons row rest =>
        have hrow : row ∈ insertChunks filePath (getFileHash content) embed chunks := by
          rw [hins]; exact List.mem_cons_self row rest
        have hrp := insertChunks_path_hash filePath (getFileHash content) embed chunks row hrow
        have hmem : row ∈ db.filter (fun r => decide (¬ r.path = filePath)) ++
            insertChunks filePath (getFileHash content) embed chunks :=
          List.mem_append.2 (Or.inr hrow)
        have hpos : 0 < ((db.filter (fun r => decide (¬ r.path = filePath)) ++
            insertChunks filePath (getFileHash content) embed chunks).filter
            (fun r => decide (r.path = filePath ∧ r.hash = getFileHash content))).length := by
          apply List.length_pos.2
          intro hnil
          have : row ∈ ((db.filter (fun r => decide (¬ r.path = filePath)) ++
              insertChunks filePath (getFileHash content) embed chunks).filter
              (fun r => decide (r.path = filePath ∧ r.hash = getFileHash content))) :=
            List.mem_filter.2 ⟨hmem, decide_eq_true hrp⟩
          rw [hnil] at this
          exact absurd this (List.not_mem_nil row)
        simp only [if_pos hpos] at h2
        rw [hins] at h2
        exact (Option.some.inj h2).symm
      | nil =>
        rw [hins, List.append_nil] at h2
        have hzero : ¬ 0 < ((db.filter (fun r => decide (¬ r.path = filePath))).filter
            (fun r => decide (r.path = filePath ∧ r.hash = getFileHash content))).length := by
          intro hpos
          rcases List.exists_mem_of_ne_nil _ (List.ne_nil_of_length_pos hpos) with ⟨r0, hr0⟩
          have h1f := List.mem_filter.1 hr0
          have h2f := List.mem_filter.1 h1f.1
          exact (of_decide_eq_true h2f.2) (of_decide_eq_true h1f.2).1
        simp only [if_neg hzero] at h2
        rw [hc] at h2
        simp only at h2
        have hself : (db.filter (fun r => decide (¬ r.path = filePath))).filter
            (fun r => decide (¬ r.path = filePath)) =
            db.filter (fun r => decide (¬ r.path = filePath)) := by
          apply List.filter_eq_self.2
          intro r hr
          exact (List.mem_filter.1 hr).2
        rw [hins] at h2
        rw [hself] at h2
        rw [List.append_nil] at h2
        rw [List.append_nil]
        exact (Option.some.inj h2).symm

/-- The row that indexing `text25` at path "p" with the constant embedding
oracle stores. -/
def exRow : Row :=
  { id := strCodes "p_chunk_0", text := text25, emb := [1],
    fileName := strCodes "p", path := exPath, fileType := strCodes "markdown",
    chunkIndex := 0, hash := getFileHash text25 }

set_option maxRecDepth 4000 in
/-- Witness for C4 at a concrete indexing run from the empty table. -/
theorem indexDocument_hash_current_witness : exRow.hash = getFileHash text25 :=
  (indexDocument_hash_current [] exPath text25 exEmbed 0 [exRow]
    (fun r1 h1 => absurd h1 (List.not_mem_nil r1)) rfl).1 exRow
    (List.mem_singleton.2 rfl) rfl

set_option maxRecDepth 4000 in
/-- Witness for C5 at a concrete double-indexing run from the empty table. -/
theorem indexDocument_idempotent_witness : ([exRow] : List Row) = [exRow] :=
  indexDocument_idempotent [] exPath text25 exEmbed 0 [exRow] [exRow] rfl rfl

end RagSpec

namespace RagSpec

/-! ### Similarity search: ranking, filtering and per-candidate error handling -/

/-- One element of the list `searchSimilar` returns: text, similarity score
and the metadata object. -/
structure SearchResult where
  text : List Nat
  score : ℚ
  fileName : List Nat
  path : List Nat
  fileType : List Nat
  chunkIndex : Nat
deriving DecidableEq, Repr

/-- The body of the `documents.map(...)` callback in `searchSimilar`: the
oracle `tryScore` stands for decoding the stored Float32Array and applying
`cosineSimilarity` to it and the query embedding; `none` is the thrown
exception, which the `catch` turns into score 0 for that candidate. -/
def scoreEntry (tryScore : Row → Option ℚ) (r : Row) : SearchResult :=
  match tryScore r with
  | some s => ⟨r.text, s, r.fileName, r.path, r.fileType, r.chunkIndex⟩
  | none => ⟨r.text, 0, r.fileName, r.path, r.fileType, r.chunkIndex⟩

/-- Stable insertion into a list sorted by descending score: what the
comparator `(a, b) => b.score - a.score` of a stable `Array.sort` produces. -/
def insertDesc (x : SearchResult) : List SearchResult → List SearchResult
  | [] => [x]
  | y :: ys => if y.score < x.score then x :: y :: ys else y :: insertDesc x ys

/-- Stable sort by descending score. -/
def sortByScoreDesc : List SearchResult → List SearchResult
  | [] => []
  | x :: xs => insertDesc x (sortByScoreDesc xs)

/-- `SQLiteVectorStore.searchSimilar(query, topK)` after the query embedding
succeeded: score every stored row (the row order models
`ORDER BY created_at DESC`), filter the scores above 0.1, sort by descending
score and take the first `topK`. -/
def searchSimilar (db : List Row) (tryScore : Row → Option ℚ) (topK : Nat) :
    List SearchResult :=
  (sortByScoreDesc ((db.map (scoreEntry tryScore)).filter
    (fun e => decide ((1 : ℚ)/10 < e.score)))).take topK

theorem mem_insertDesc (x a : SearchResult) :
    ∀ l, a ∈ insertDesc x l ↔ a = x ∨ a ∈ l := by
  intro l
  induction l with
  | nil => simp [insertDesc]
  | cons y ys ih =>
    rw [insertDesc]
    split
    · simp
    · rw [List.mem_cons, ih, List.mem_cons]
      tauto

theorem mem_sortByScoreDesc (a : SearchResult) :
    ∀ l, a ∈ sortByScoreDesc l ↔ a ∈ l := by
  intro l
  induction l with
  | nil => simp [sortByScoreDesc]
  | cons y ys ih =>
    rw [sortByScoreDesc, mem_insertDesc, ih, List.mem_cons]

theorem pairwise_insertDesc (x : SearchResult) :
    ∀ l, List.Pairwise (fun a b => b.score ≤ a.score) l →
      List.Pairwise (fun a b => b.score ≤ a.score) (insertDesc x l) := by
  intro l
  induction l with
  | nil => intro _; simp [insertDesc]
  | cons y ys ih =>
    intro hp
    rcases List.pairwise_cons.1 hp with ⟨hy, hys⟩
    rw [insertDesc]
    split
    · rename_i hlt
      refine List.pairwise_cons.2 ⟨?_, hp⟩
      intro b hb
      rcases List.mem_cons.1 hb with rfl | hb
      · exact le_of_lt hlt
      · exact le_trans (hy b hb) (le_of_lt hlt)
    · rename_i hnlt
      refine List.pairwise_cons.2 ⟨?_, ih hys⟩
      intro b hb
      rcases (mem_insertDesc x b ys).1 hb with rfl | hb
      · exact le_of_not_lt hnlt
      · exact hy b hb

theorem pairwise_sortByScoreDesc :
    ∀ l, List.Pairwise (fun a b => b.score ≤ a.score) (sortByScoreDesc l) := by
  intro l
  induction l with
  | nil => simp [sortByScoreDesc]
  | cons y ys ih => exact pairwise_insertDesc y (sortByScoreDesc ys) ih

theorem searchSimilar_mem_score (db : List Row) (tryScore : Row → Option ℚ)
    (topK : Nat) (e : SearchResult) (he : e ∈ searchSimilar db tryScore topK) :
    (1 : ℚ)/10 < e.score ∧ ∃ r ∈ db, e = scoreEntry tryScore r := by
  have hsort := (List.take_sublist topK _).subset he
  have hfilter := (mem_sortByScoreDesc e _).1 hsort
  have hmem := List.mem_filter.1 hfilter
  refine ⟨of_decide_eq_true hmem.2, ?_⟩
  rcases List.mem_map.1 hmem.1 with ⟨r, hr, hre⟩
  exact ⟨r, hr, hre.symm⟩

/-- Claim C6: the result list of `searchSimilar` is sorted by descending
score, has at most `topK` elements, and every returned score is strictly
greater than 0.1. -/
theorem searchSimilar_ranked (db : List Row) (tryScore : Row → Option ℚ) (topK : Nat) :
    List.Pairwise (fun a b => b.score ≤ a.score) (searchSimilar db tryScore topK) ∧
    (searchSimilar db tryScore topK).length ≤ topK ∧
    ∀ e ∈ searchSimilar db tryScore topK, (1 : ℚ)/10 < e.score := by
  refine ⟨?_, ?_, ?_⟩
  · exact (pairwise_sortByScoreDesc _).sublist (List.take_sublist topK _)
  · exact List.length_take_le topK _
  · intro e he
    exact (searchSimilar_mem_score db tryScore topK e he).1

end RagSpec

namespace RagSpec

/-- Witness for C6 at a concrete search. -/
theorem searchSimilar_ranked_witness :
    (searchSimilar [exRow] (fun _ => none) 3).length ≤ 3 :=
  (searchSimilar_ranked [exRow] (fun _ => none) 3).2.1

/-- Claim C9: a stored candidate whose decode-and-score computation throws
(`tryScore r = none`) is given score 0 by the `catch`, the 0.1-relevance
filter therefore excludes its entry from the returned list, and every entry
that is returned comes from a candidate whose scoring succeeded with a score
above 0.1 — the error stops neither the other candidates nor the search. -/
theorem searchSimilar_error_dropped (db : List Row) (tryScore : Row → Option ℚ)
    (topK : Nat) (r : Row) (hr : r ∈ db) (herr : tryScore r = none) :
    (scoreEntry tryScore r).score = 0 ∧
    scoreEntry tryScore r ∉ searchSimilar db tryScore topK ∧
    ∀ e ∈ searchSimilar db tryScore topK,
      ∃ r2 ∈ db, ∃ s, tryScore r2 = some s ∧ (1 : ℚ)/10 < s ∧ e = scoreEntry tryScore r2 := by
  have hzero : (scoreEntry tryScore r).score = 0 := by
    rw [scoreEntry, herr]
  refine ⟨hzero, ?_, ?_⟩
  · intro hmem
    have := (searchSimilar_mem_score db tryScore topK _ hmem).1
    rw [hzero] at this
    norm_num at this
  · intro e he
    rcases searchSimilar_mem_score db tryScore topK e he with ⟨hs, r2, hr2, rfl⟩
    cases h2 : tryScore r2 with
    | none =>
      have : (scoreEntry tryScore r2).score = 0 := by rw [scoreEntry, h2]
      rw [this] at hs
      norm_num at hs
    | some s =>
      have : (scoreEntry tryScore r2).score = s := by rw [scoreEntry, h2]
      exact ⟨r2, hr2, s, h2, this ▸ hs, rfl⟩

/-- Witness for C9: with an always-throwing scorer, the stored row's entry is
not among the results. -/
theorem searchSimilar_error_dropped_witness :
    scoreEntry (fun _ => none) exRow ∉ searchSimilar [exRow] (fun _ => none) 3 :=
  (searchSimilar_error_dropped [exRow] (fun _ => none) 3 exRow
    (List.mem_singleton.2 rfl) rfl).2.1

/-! ### Change detection -/

/-- The triple `checkForNewFiles` returns. -/
structure ScanResult where
  newFiles : List (List Nat)
  changedFiles : List (List Nat)
  allFiles : List (List Nat)

/-- `SQLiteVectorStore.getIndexedFiles()`: `SELECT DISTINCT file_path` (the
`ORDER BY file_path` only permutes the list and no claim depends on the
order, so distinct paths are kept in first-occurrence order). -/
def getIndexedFiles (db : List Row) : List (List Nat) :=
  (db.map (fun r => r.path)).dedup

/-- `SQLiteVectorStore.checkForNewFiles(docsDir)`: `dirFiles` is the list of
joined paths of the `.md` files `readdirSync` found, and `disk` is the
filesystem oracle (`none` when `existsSync` is false, otherwise the
`readFileSync` content).  New files are on-disk paths not indexed; changed
files are indexed paths whose stored hash differs from the current content
hash. -/
def checkForNewFiles (db : List Row) (dirFiles : List (List Nat))
    (disk : List Nat → Option (List Nat)) : ScanResult :=
  let allFiles := dirFiles
  let indexedFiles := getIndexedFiles db
  let newFiles := allFiles.filter (fun f => decide (¬ f ∈ indexedFiles))
  let changedFiles := indexedFiles.filter (fun p =>
    match disk p with
    | none => false
    | some content =>
      match db.find? (fun r => decide (r.path = p)) with
      | none => false
      | some stored => decide (¬ stored.hash = getFileHash content))
  ⟨newFiles, changedFiles, allFiles⟩

/-- Claim C10: `checkForNewFiles` returns disjoint lists — every new file is
outside the indexed paths, every changed file is an indexed path, and no path
is both new and changed. -/
theorem checkForNewFiles_disjoint (db : List Row) (dirFiles : List (List Nat))
    (disk : List Nat → Option (List Nat)) :
    (∀ f ∈ (checkForNewFiles db dirFiles disk).newFiles, f ∉ getIndexedFiles db) ∧
    (∀ f ∈ (checkForNewFiles db dirFiles disk).changedFiles, f ∈ getIndexedFiles db) ∧
    ∀ f, f ∈ (checkForNewFiles db dirFiles disk).newFiles →
      f ∉ (checkForNewFiles db dirFiles disk).changedFiles := by
  have hnew : ∀ f ∈ (checkForNewFiles db dirFiles disk).newFiles, f ∉ getIndexedFiles db := by
    intro f hf
    exact of_decide_eq_true (List.mem_filter.1 hf).2
  have hchanged : ∀ f ∈ (checkForNewFiles db dirFiles disk).changedFiles,
      f ∈ getIndexedFiles db := by
    intro f hf
    exact (List.mem_filter.1 hf).1
  exact ⟨hnew, hchanged, fun f hf hfc => hnew f hf (hchanged f hfc)⟩

def exNewPath : List Nat := strCodes "docs/q.md"

/-- Witness for C10 at a concrete scan: the un-indexed on-disk file is
reported new and is not an indexed path. -/
theorem checkForNewFiles_disjoint_witness : exNewPath ∉ getIndexedFiles [exRow] :=
  (checkForNewFiles_disjoint [exRow] [exNewPath] (fun _ => none)).1 exNewPath (by decide)

end RagSpec

namespace RagSpec

/-! ### Cosine similarity over the reals -/

/-- `a.reduce((sum, ai, i) => sum + ai * b[i], 0)` under the equal-length
guard: fold of pairwise products. -/
def dotProduct (a b : List ℝ) : ℝ :=
  (a.zip b).foldl (fun s p => s + p.1 * p.2) 0

/-- `a.reduce((sum, ai) => sum + ai * ai, 0)`. -/
def sumSq (a : List ℝ) : ℝ :=
  a.foldl (fun s x => s + x * x) 0

/-- `Math.sqrt` of the sum of squares. -/
noncomputable def magnitude (a : List ℝ) : ℝ := Real.sqrt (sumSq a)

/-- `SQLiteVectorStore.cosineSimilarity(a, b)`: 0 on dimension mismatch, 0
when either magnitude is zero, otherwise the dot product over the product of
magnitudes. -/
noncomputable def cosineSimilarity (a b : List ℝ) : ℝ :=
  if a.length ≠ b.length then 0
  else if magnitude a = 0 ∨ magnitude b = 0 then 0
  else dotProduct a b / (magnitude a * magnitude b)

theorem sumSq_nonneg_from (a : List ℝ) : ∀ c : ℝ, 0 ≤ c →
    0 ≤ a.foldl (fun s x => s + x * x) c := by
  induction a with
  | nil => intro c hc; exact hc
  | cons x xs ih =>
    intro c hc
    exact ih (c + x * x) (add_nonneg hc (mul_self_nonneg x))

theorem sumSq_nonneg (a : List ℝ) : 0 ≤ sumSq a :=
  sumSq_nonneg_from a 0 le_rfl

/-- Claim C7: `cosineSimilarity` is a total function that returns 0 on a
dimension mismatch and 0 when either vector has zero magnitude; in the
remaining case the divisor `magnitude a * magnitude b` is strictly positive,
so the division is by a nonzero real (the model of "never NaN, never throws")
and the result times the divisor is the dot product. -/
theorem cosineSimilarity_total (a b : List ℝ) :
    (a.length ≠ b.length → cosineSimilarity a b = 0) ∧
    (magnitude a = 0 ∨ magnitude b = 0 → cosineSimilarity a b = 0) ∧
    (a.length = b.length → magnitude a ≠ 0 → magnitude b ≠ 0 →
      0 < magnitude a * magnitude b ∧
      cosineSimilarity a b * (magnitude a * magnitude b) = dotProduct a b) := by
  refine ⟨?_, ?_, ?_⟩
  · intro h
    rw [cosineSimilarity, if_pos h]
  · intro h
    by_cases hl : a.length ≠ b.length
    · rw [cosineSimilarity, if_pos hl]
    · rw [cosineSimilarity, if_neg hl, if_pos h]
  · intro hl hma hmb
    have hpa : 0 < magnitude a :=
      lt_of_le_of_ne (Real.sqrt_nonneg (sumSq a)) (Ne.symm hma)
    have hpb : 0 < magnitude b :=
      lt_of_le_of_ne (Real.sqrt_nonneg (sumSq b)) (Ne.symm hmb)
    have hpos : 0 < magnitude a * magnitude b := mul_pos hpa hpb
    refine ⟨hpos, ?_⟩
    rw [cosineSimilarity, if_neg (not_not_intro hl), if_neg (not_or.2 ⟨hma, hmb⟩)]
    exact div_mul_cancel₀ (dotProduct a b) (ne_of_gt hpos)

/-- Witness for C7 at a concrete dimension mismatch. -/
theorem cosineSimilarity_total_witness : cosineSimilarity [1] [1, 2] = 0 :=
  (cosineSimilarity_total [1] [1, 2]).1 (by decide)

end RagSpec

namespace RagSpec

/-! ### The tool's execute: primary answer, keyword fallback, terminal message -/

/-- ASCII lowering, the fragment of `toLowerCase` the scanned ASCII keywords
exercise. -/
def toLowerAscii (l : List Nat) : List Nat :=
  l.map (fun c => if 65 ≤ c ∧ c ≤ 90 then c + 32 else c)

/-- Whether the first list is a leading segment of the second. -/
def leadsWith : List Nat → List Nat → Bool
  | [], _ => true
  | _ :: _, [] => false
  | a :: as, b :: bs => a == b && leadsWith as bs

/-- JavaScript `hay.includes(needle)` on code-unit lists. -/
def containsSeq : List Nat → List Nat → Bool
  | [], needle => needle.isEmpty
  | hay@(_ :: t), needle => leadsWith needle hay || containsSeq t needle

/-- A markdown file the fallback reads: `basename` and content. -/
structure MdFile where
  name : List Nat
  content : List Nat

/-- `allContent += '\n\n=== ' + mdFile + ' ===\n' + content` over the files. -/
def buildAllContent (files : List MdFile) : List Nat :=
  files.foldl
    (fun acc f => acc ++ strCodes "\n\n=== " ++ f.name ++ strCodes " ===\n" ++ f.content) []

/-- `allContent.split('\n')`. -/
def splitNlAux : List Nat → List Nat → List (List Nat)
  | [], acc => [acc.reverse]
  | 10 :: rest, acc => acc.reverse :: splitNlAux rest []
  | c :: rest, acc => splitNlAux rest (c :: acc)

/-- The per-line keyword filter of the fallback. -/
def lineRelevant (ln : List Nat) : Bool :=
  containsSeq (toLowerAscii ln) (strCodes "install") ||
  containsSeq (toLowerAscii ln) (strCodes "prerequisite") ||
  containsSeq (toLowerAscii ln) (strCodes "wasm-pack") ||
  containsSeq (toLowerAscii ln) (strCodes "node.js") ||
  containsSeq (toLowerAscii ln) (strCodes "rust")

/-- "Използван е fallback метод…" — the generic degraded-service reply. -/
def fallbackUsedMsg : List Nat :=
  strCodes "Използван е fallback метод. Моля, рестартирайте агента за пълна функционалност."

/-- "Възникна грешка при търсенето в документацията." — the terminal
search-failed reply of the outer catch. -/
def searchFailedMsg : List Nat :=
  strCodes "Възникна грешка при търсенето в документацията."

/-- Reply when the vector search returned no results at all. -/
def noResultsMsg : List Nat :=
  strCodes "Не е намерена релевантна информация в документацията за тази заявка."

/-- Reply when assembly filtered every result out (`combinedText || …`). -/
def notEnoughMsg : List Nat :=
  strCodes "Не е намерена достатъчно релевантна информация в документацията."

/-- The keyword-fallback body: concatenate the files, check the content for
the heuristic keywords (the query's lowercase is computed by the source but
not consulted here), and return the first ten relevant lines or the generic
degraded-service reply. -/
def fallbackScan (files : List MdFile) (query : List Nat) : List Nat :=
  let allContent := buildAllContent files
  let lowerContent := toLowerAscii allContent
  if containsSeq lowerContent (strCodes "wasm-pack") ||
     containsSeq lowerContent (strCodes "prerequisite") ||
     containsSeq lowerContent (strCodes "install") then
    List.intercalate (strCodes "\n") (((splitNlAux allContent []).filter lineRelevant).take 10)
  else fallbackUsedMsg

/-- JavaScript `Math.round`: round half toward positive infinity. -/
def jsRound (q : ℚ) : Int := Int.floor (q + 1/2)

/-- Decimal rendering of an integer, as code units. -/
def intDigits (i : Int) : List Nat :=
  if i < 0 then 45 :: natDigits i.natAbs else natDigits i.natAbs

/-- The primary-path assembly: keep results scoring above 0.2, format each as
`[i+1] (percent% релевантност) text`, join with blank lines. -/
def assembleResults (results : List SearchResult) : List Nat :=
  List.intercalate (strCodes "\n\n")
    (((results.filter (fun r => decide ((1 : ℚ)/5 < r.score))).enum).map (fun ir =>
      strCodes "[" ++ natDigits (ir.1 + 1) ++ strCodes "] (" ++
      intDigits (jsRound (ir.2.score * 100)) ++ strCodes "% релевантност) " ++ ir.2.text))

/-- `ragSQLiteTool.execute({query})`: the outer `try` is the vector pipeline
(`getOrCreateVectorStore` + `searchSimilar`), modelled by the `searchOutcome`
oracle; its `catch` runs the keyword fallback, whose own file reads are the
`fbFiles` oracle; the inner `catch` returns the terminal search-failed
message.  Every branch produces a string. -/
def executeRag (searchOutcome : Except Unit (List SearchResult))
    (fbFiles : Except Unit (List MdFile)) (query : List Nat) : List Nat :=
  match searchOutcome with
  | Except.ok results =>
    if results.length = 0 then noResultsMsg
    else
      let combined := assembleResults results
      if combined.length = 0 then notEnoughMsg else combined
  | Except.error _ =>
    match fbFiles with
    | Except.ok files => fallbackScan files query
    | Except.error _ => searchFailedMsg

/-- Claim C8: `executeRag` returns a string for every outcome of the two
fallible stages — when the vector pipeline fails control passes to the
keyword fallback, and when the fallback's file reads also fail the non-empty
terminal search-failed message is returned instead of a fault. -/
theorem executeRag_never_faults (query : List Nat)
    (searchOutcome : Except Unit (List SearchResult))
    (fbFiles : Except Unit (List MdFile)) :
    (∀ e, searchOutcome = Except.error e → ∀ e2, fbFiles = Except.error e2 →
      executeRag searchOutcome fbFiles query = searchFailedMsg) ∧
    (∀ e, searchOutcome = Except.error e → ∀ files, fbFiles = Except.ok files →
      executeRag searchOutcome fbFiles query = fallbackScan files query) ∧
    (∀ results, searchOutcome = Except.ok results →
      executeRag searchOutcome fbFiles query =
        (if results.length = 0 then noResultsMsg
         else if (assembleResults results).length = 0 then notEnoughMsg
         else assembleResults results)) ∧
    searchFailedMsg ≠ [] := by
  refine ⟨?_, ?_, ?_, ?_⟩
  · rintro e rfl e2 rfl
    rfl
  · rintro e rfl files rfl
    rfl
  · rintro results rfl
    rfl
  · decide

/-- Witness for C8 on the doubly-failing path. -/
theorem executeRag_never_faults_witness :
    executeRag (Except.error ()) (Except.error ()) [] = searchFailedMsg :=
  (executeRag_never_faults [] (Except.error ()) (Except.error ())).1 () rfl () rfl

end RagSpec
